import Mathlib

set_option maxHeartbeats 1000000

/- Shallow embedding of the MULTI/EXEC/WATCH transaction core (multi.c of an
in-memory key-value server).  Machine state is modelled with plain lists and
association lists; client flags (CLIENT_MULTI, CLIENT_DIRTY_CAS,
CLIENT_DIRTY_EXEC, CLIENT_MASTER) become Boolean fields; the per-database
watched-keys dictionary becomes an association list from key to the ordered
list of watching client ids. -/

/-- Command descriptor flag bits consumed by this module
(CMD_WRITE, CMD_READONLY, CMD_ADMIN). -/
structure CmdFlags where
  write : Bool
  readonly : Bool
  admin : Bool
deriving DecidableEq

/-- The zero flag set (mstate.cmd_flags = 0 after initClientMultiState). -/
def CmdFlags.zero : CmdFlags := ⟨false, false, false⟩

/-- Bitwise OR of two flag sets (mstate.cmd_flags |= cmd->flags). -/
def CmdFlags.union (a b : CmdFlags) : CmdFlags :=
  ⟨a.write || b.write, a.readonly || b.readonly, a.admin || b.admin⟩

/-- A queued command (multiCmd in the source: cmd, argc, argv).  The argument
vector is abstracted to the command word used for propagation frames.  The
field setMaster is modelled from the spec: the executor (call) of a queued
command such as SLAVEOF may switch the server role (masterhost) during the
EXEC drain; the executor itself is an external collaborator, not in src/. -/
structure QueuedCmd where
  name : String
  flags : CmdFlags
  setMaster : Option Bool
deriving DecidableEq

/-- A watched key: key name plus the database it lives in (struct watchedKey). -/
structure WatchedKey where
  key : String
  db : Nat
deriving DecidableEq

/-- Per-client state: the flag bits, the current database id (c->db), the
transaction queue (c->mstate.commands), the accumulated queued command flags
(c->mstate.cmd_flags) and the watched-keys list (c->watched_keys). -/
structure Client where
  multi : Bool
  dirty_cas : Bool
  dirty_exec : Bool
  is_master : Bool
  db : Nat
  queue : List QueuedCmd
  queued_flags : CmdFlags
  watched : List WatchedKey
deriving DecidableEq

/-- A per-database watched-keys dictionary: key name to the ordered list of
watching client ids (db->watched_keys, a dict of lists). -/
abbrev KeyDict := List (String × List Nat)

/-- The watch index over all databases: database id to its dictionary. -/
abbrev WatchIdx := List (Nat × KeyDict)

/-- The server's client table: client id to client state (server.clients);
clients are identified by a stable id, standing for the C pointer identity. -/
abbrev ClientTab := List (Nat × Client)

/-- The underlying key space of each database (db->dict), keys only:
database id to the list of keys currently present. -/
abbrev Stores := List (Nat × List String)

/-- Lookup in an association list (the first binding wins, as in a dict). -/
def assocFind {α β : Type} [DecidableEq α] : List (α × β) → α → Option β
  | [], _ => Option.none
  | p :: rest, a => if p.1 = a then some p.2 else assocFind rest a

/-- Store a binding: replace the first binding of the key, or append a fresh
binding when the key is absent (dictAdd / in-place value update). -/
def assocSet {α β : Type} [DecidableEq α] : List (α × β) → α → β → List (α × β)
  | [], a, b => [(a, b)]
  | p :: rest, a, b => if p.1 = a then (a, b) :: rest else p :: assocSet rest a b

/-- Delete the first binding of a key (dictDelete). -/
def assocDel {α β : Type} [DecidableEq α] : List (α × β) → α → List (α × β)
  | [], _ => []
  | p :: rest, a => if p.1 = a then rest else p :: assocDel rest a

/-- dictFetchValue on a key dictionary. -/
def dictFetch (d : KeyDict) (k : String) : Option (List Nat) := assocFind d k

/-- Store a per-key client list in a key dictionary. -/
def dictSet (d : KeyDict) (k : String) (v : List Nat) : KeyDict := assocSet d k v

/-- dictDelete on a key dictionary. -/
def dictDel (d : KeyDict) (k : String) : KeyDict := assocDel d k

/-- The dictionary of one database inside the index ([] when absent). -/
def idxGet (w : WatchIdx) (db : Nat) : KeyDict := (assocFind w db).getD []

/-- Replace (or create) the dictionary of one database inside the index. -/
def idxSet (w : WatchIdx) (db : Nat) (d : KeyDict) : WatchIdx := assocSet w db d

/-- The list of clients watching (db, key) ([] when no entry exists). -/
def idxClients (w : WatchIdx) (db : Nat) (key : String) : List Nat :=
  (dictFetch (idxGet w db) key).getD []

/-- watchForKey: if the (db, key) pair is already in the client's watched
list (db identity and key value-equality), do nothing; otherwise append the
client to the per-key client list of the database index (creating the entry
when absent) and append the pair to the client's watched list. -/
def watchForKey (cid : Nat) (c : Client) (key : String) (w : WatchIdx) :
    Client × WatchIdx :=
  if WatchedKey.mk key c.db ∈ c.watched then (c, w)
  else
    let d := idxGet w c.db
    let d' :=
      match dictFetch d key with
      | Option.none => dictSet d key [cid]
      | some cs => dictSet d key (cs ++ [cid])
    ({c with watched := c.watched ++ [WatchedKey.mk key c.db]}, idxSet w c.db d')

/-- One step of unwatchAllKeys: remove the client from the per-key client
list of one watched key, deleting the dictionary entry when the list becomes
empty.  The source asserts the entry exists (serverAssertWithInfo); when it
does not — unreachable under the invariant — the index is left unchanged. -/
def unwatchOne (cid : Nat) (w : WatchIdx) (wk : WatchedKey) : WatchIdx :=
  let d := idxGet w wk.db
  match dictFetch d wk.key with
  | Option.none => w
  | some cs =>
    let cs' := cs.erase cid
    if cs'.isEmpty then idxSet w wk.db (dictDel d wk.key)
    else idxSet w wk.db (dictSet d wk.key cs')

/-- unwatchAllKeys: remove the client from every per-key client list it
appears in (via its watched list) and empty the client's watched list. -/
def unwatchAllKeys (cid : Nat) (c : Client) (w : WatchIdx) : Client × WatchIdx :=
  if c.watched.isEmpty then (c, w)
  else ({c with watched := []}, c.watched.foldl (unwatchOne cid) w)

/-- Update one client in the table (in-place mutation through the pointer). -/
def mapClient (cs : ClientTab) (cid : Nat) (f : Client → Client) : ClientTab :=
  cs.map (fun p => if p.1 = cid then (p.1, f p.2) else p)

/-- Set CLIENT_DIRTY_CAS on every client id of the given list (the loop body
of touchWatchedKey). -/
def setDirtyCas (ws : List Nat) (cs : ClientTab) : ClientTab :=
  ws.foldl (fun acc i => mapClient acc i (fun c => {c with dirty_cas := true})) cs

/-- touchWatchedKey: if the database dictionary is empty return; else fetch
the client list of the key and mark every client on it CLIENT_DIRTY_CAS. -/
def touchWatchedKey (w : WatchIdx) (db : Nat) (key : String) (cs : ClientTab) :
    ClientTab :=
  let d := idxGet w db
  if d.isEmpty then cs
  else
    match dictFetch d key with
    | Option.none => cs
    | some watchers => setDirtyCas watchers cs

/-- dictFind on the underlying key space of a database. -/
def keyExists (st : Stores) (db : Nat) (key : String) : Bool :=
  match st with
  | [] => false
  | p :: rest => if p.1 = db then p.2.contains key else keyExists rest db key

/-- Inner loop of touchWatchedKeysOnFlush over one client's watched list:
for every watched key matching the flushed database (dbid = -1 meaning all),
if the key currently exists in the store, set CLIENT_DIRTY_CAS. -/
def touchClientOnFlush (dbid : Int) (st : Stores) (c : Client) : Client :=
  c.watched.foldl
    (fun acc wk =>
      if dbid = -1 ∨ (wk.db : Int) = dbid then
        if keyExists st wk.db wk.key then {acc with dirty_cas := true} else acc
      else acc)
    c

/-- touchWatchedKeysOnFlush: apply the inner loop to every server client. -/
def touchWatchedKeysOnFlush (dbid : Int) (st : Stores) (cs : ClientTab) :
    ClientTab :=
  cs.map (fun p => (p.1, touchClientOnFlush dbid st p.2))

/-- Replies sent back to the invoking client. -/
inductive Reply where
  | ok
  | queued
  | err (msg : String)
  | nullArray
  | arrayLen (n : Nat)
  | result (name : String)
deriving DecidableEq

/-- A frame handed to the propagation sink propagate():
the propagated command word and the database id of the frame. -/
structure PropFrame where
  name : String
  db : Nat
deriving DecidableEq

/-- Server-global state consumed by EXEC: loading flag, whether a primary is
configured (masterhost non-NULL), the read-only-replica switch, whether the
replication backlog is active, the dirty counter, the watch index, the
propagation sink (AOF + replication) and the raw replication backlog. -/
structure Server where
  loading : Bool
  masterhost : Bool
  repl_slave_ro : Bool
  repl_backlog : Bool
  dirty : Nat
  idx : WatchIdx
  sink : List PropFrame
  backlog : List String
deriving DecidableEq

/-- initClientMultiState: empty queue, zero accumulated flags. -/
def initClientMultiState (c : Client) : Client :=
  {c with queue := [], queued_flags := CmdFlags.zero}

/-- queueMultiCommand: append the command to the transaction queue and OR its
descriptor flags into the accumulated flags. -/
def queueMultiCommand (c : Client) (q : QueuedCmd) : Client :=
  {c with queue := c.queue ++ [q],
          queued_flags := CmdFlags.union c.queued_flags q.flags}

/-- discardTransaction: reset the queue, clear CLIENT_MULTI,
CLIENT_DIRTY_CAS and CLIENT_DIRTY_EXEC, then unwatch all keys. -/
def discardTransaction (cid : Nat) (c : Client) (w : WatchIdx) :
    Client × WatchIdx :=
  let c1 := initClientMultiState c
  let c2 := {c1 with multi := false, dirty_cas := false, dirty_exec := false}
  unwatchAllKeys cid c2 w

/-- flagTransaction: on a queue-time error, mark CLIENT_DIRTY_EXEC if a
transaction is open. -/
def flagTransaction (c : Client) : Client :=
  if c.multi then {c with dirty_exec := true} else c

/-- multiCommand: refuse nesting, otherwise set CLIENT_MULTI and reply OK. -/
def multiCommand (c : Client) : Client × Reply :=
  if c.multi then (c, Reply.err "MULTI calls can not be nested")
  else ({c with multi := true}, Reply.ok)

/-- discardCommand: refuse outside a transaction, otherwise discard. -/
def discardCommand (cid : Nat) (c : Client) (w : WatchIdx) :
    Client × WatchIdx × Reply :=
  if c.multi then
    let p := discardTransaction cid c w
    (p.1, p.2, Reply.ok)
  else (c, w, Reply.err "DISCARD without MULTI")

/-- watchCommand: refused inside MULTI; otherwise watch every argument key. -/
def watchCommand (cid : Nat) (c : Client) (keys : List String) (w : WatchIdx) :
    Client × WatchIdx × Reply :=
  if c.multi then (c, w, Reply.err "WATCH inside MULTI is not allowed")
  else
    let p := keys.foldl (fun acc k => watchForKey cid acc.1 k acc.2) (c, w)
    (p.1, p.2, Reply.ok)

/-- unwatchCommand: unwatch all keys and clear CLIENT_DIRTY_CAS. -/
def unwatchCommand (cid : Nat) (c : Client) (w : WatchIdx) :
    Client × WatchIdx × Reply :=
  let p := unwatchAllKeys cid c w
  ({p.1 with dirty_cas := false}, p.2, Reply.ok)

/-- execCommandPropagateMulti: send a synthetic MULTI frame, with the
client's database id, to the propagation sink (AOF + replication). -/
def execCommandPropagateMulti (c : Client) (s : Server) : Server :=
  {s with sink := s.sink ++ [PropFrame.mk "MULTI" c.db]}

/-- Modelled from the spec: call(), the command dispatcher invoked for each
queued command, is an external collaborator not present in src/.  Per the
spec's propagation contract, a command reaches the sink only when it performs
a write and the server is not loading (CMD_CALL_FULL), so pure reads and
administrative commands leave no trace; the executor of a command such as
SLAVEOF may change the server role (masterhost) mid-drain, which the
setMaster field models. -/
def callQueued (c : Client) (q : QueuedCmd) (s : Server) : Server × Reply :=
  let s1 := if !s.loading && q.flags.write
            then {s with sink := s.sink ++ [PropFrame.mk q.name c.db]} else s
  let s2 :=
    match q.setMaster with
    | Option.none => s1
    | some m => {s1 with masterhost := m}
  (s2, Reply.result q.name)

/-- A queued entry that triggers the lazy MULTI emission: neither read-only
nor administrative (the negated CMD_READONLY|CMD_ADMIN test). -/
def isTrigger (q : QueuedCmd) : Bool := !(q.flags.readonly || q.flags.admin)

/-- The EXEC drain loop (step 7 of execCommand): for every queued command in
order, emit the synthetic MULTI frame at the first trigger, then invoke the
executor; returns the final server, must_propagate, and per-command replies. -/
def execDrain (c : Client) : List QueuedCmd → Bool → Server →
    Server × Bool × List Reply
  | [], mp, s => (s, mp, [])
  | q :: qs, mp, s =>
    let p :=
      if !mp && isTrigger q then (execCommandPropagateMulti c s, true)
      else (s, mp)
    let cr := callQueued c q p.1
    let rest := execDrain c qs p.2 cr.1
    (rest.1, rest.2.1, cr.2 :: rest.2.2)

/-- The raw EXEC frame fed to the replication backlog on a mid-drain role
change. -/
def execBacklogBytes : String := "*1\r\n$4\r\nEXEC\r\n"

/-- The read-only-replica refusal message. -/
def roSlaveErr : String :=
  "Transaction contains write commands but instance is now a read-only slave. EXEC aborted."

/-- The abort-error reply sent when CLIENT_DIRTY_EXEC is set. -/
def execAbortErr : String :=
  "EXECABORT Transaction discarded because of previous errors."

/-- execCommand: the EXEC state machine.  Refuse outside MULTI; abort on the
dirty flags (DIRTY_EXEC wins and yields the abort error, DIRTY_CAS yields the
null multi-bulk); refuse a write-carrying batch on a read-only replica unless
the client is the replication link; otherwise unwatch all keys, announce the
batch length, drain the queue (with lazy MULTI propagation), discard the
transaction state, and finalize propagation (dirty counter, and the raw EXEC
backlog frame on a primary-to-replica role change during the drain). -/
def execCommand (cid : Nat) (c : Client) (s : Server) :
    Client × Server × List Reply :=
  let was_master := !s.masterhost
  if !c.multi then (c, s, [Reply.err "EXEC without MULTI"])
  else if c.dirty_cas || c.dirty_exec then
    let r := if c.dirty_exec then Reply.err execAbortErr else Reply.nullArray
    let p := discardTransaction cid c s.idx
    (p.1, {s with idx := p.2}, [r])
  else if !s.loading && s.masterhost && s.repl_slave_ro && !c.is_master &&
          c.queued_flags.write then
    let p := discardTransaction cid c s.idx
    (p.1, {s with idx := p.2}, [Reply.err roSlaveErr])
  else
    let p1 := unwatchAllKeys cid c s.idx
    let c1 := p1.1
    let s1 := {s with idx := p1.2}
    let dr := execDrain c1 c1.queue false s1
    let s2 := dr.1
    let mp := dr.2.1
    let p2 := discardTransaction cid c1 s2.idx
    let c2 := p2.1
    let s3 := {s2 with idx := p2.2}
    let s4 :=
      if mp then
        let is_master := !s3.masterhost
        let s' := {s3 with dirty := s3.dirty + 1}
        if s'.repl_backlog && was_master && !is_master
        then {s' with backlog := s'.backlog ++ [execBacklogBytes]}
        else s'
      else s3
    (c2, s4, Reply.arrayLen c1.queue.length :: dr.2.2)

/-- Lookup of a client by its id in the server client table. -/
def lookupClient (cs : ClientTab) (cid : Nat) : Option Client := assocFind cs cid

/-- Server-level WATCH of one key by one client: locate the client, run
watchForKey, store the updated client back. -/
def watchOp (cid : Nat) (key : String) (cs : ClientTab) (w : WatchIdx) :
    ClientTab × WatchIdx :=
  match lookupClient cs cid with
  | Option.none => (cs, w)
  | some c =>
    let p := watchForKey cid c key w
    (mapClient cs cid (fun _ => p.1), p.2)

/-- Server-level UNWATCH-all of one client. -/
def unwatchOp (cid : Nat) (cs : ClientTab) (w : WatchIdx) :
    ClientTab × WatchIdx :=
  match lookupClient cs cid with
  | Option.none => (cs, w)
  | some c =>
    let p := unwatchAllKeys cid c w
    (mapClient cs cid (fun _ => p.1), p.2)

/-- Structural well-formedness of the watch index: database ids are distinct,
each dictionary has distinct keys, and each per-key client list holds a
client at most once. -/
@[reducible] def WfIdx (w : WatchIdx) : Prop :=
  (w.map Prod.fst).Nodup ∧
  ∀ dp ∈ w, ((dp.2.map Prod.fst).Nodup ∧ ∀ e ∈ dp.2, e.2.Nodup)

/-- The watch-index invariant: distinct client ids, a well-formed index, each
client's watched list free of duplicate (db, key) pairs, every watched pair
registered in the index (forward direction), and every index entry backed by
a client that watches the pair (backward direction). -/
@[reducible] def WInv (cs : ClientTab) (w : WatchIdx) : Prop :=
  (cs.map Prod.fst).Nodup ∧
  WfIdx w ∧
  (∀ p ∈ cs, p.2.watched.Nodup) ∧
  (∀ p ∈ cs, ∀ wk ∈ p.2.watched, p.1 ∈ idxClients w wk.db wk.key) ∧
  (∀ dp ∈ w, ∀ e ∈ dp.2, ∀ i ∈ e.2,
    ∃ p ∈ cs, p.1 = i ∧ WatchedKey.mk e.1 dp.1 ∈ p.2.watched)

/-- The frames the EXEC drain hands to the propagation sink, as a function of
the queue, the pending must_propagate flag, the client's database id and the
loading flag (a proof-side characterization of execDrain's sink output). -/
def emitFrames (db : Nat) (loading : Bool) : List QueuedCmd → Bool → List PropFrame
  | [], _ => []
  | q :: qs, mp =>
    (if !mp && isTrigger q then [PropFrame.mk "MULTI" db] else []) ++
    (if !loading && q.flags.write then [PropFrame.mk q.name db] else []) ++
    emitFrames db loading qs (mp || isTrigger q)

/-- The server role after the drain: the last role change requested by a
queued command wins (a proof-side characterization). -/
def drainMasterhost (qs : List QueuedCmd) (m : Bool) : Bool :=
  qs.foldl (fun acc q => q.setMaster.getD acc) m

/-- A watched key that a flush of the given database (or of all databases,
dbid = -1) hits: the database matches and the key currently exists. -/
def flushHit (dbid : Int) (st : Stores) (wk : WatchedKey) : Bool :=
  (decide (dbid = -1) || decide ((wk.db : Int) = dbid)) && keyExists st wk.db wk.key

/- Concrete machine states used by the closed instance theorems below. -/

/-- A client of database 0 watching key "a", otherwise idle. -/
def cWatcher : Client := ⟨false, false, false, false, 0, [], CmdFlags.zero, [⟨"a", 0⟩]⟩

/-- A one-entry watch index: client 1 watches key "a" of database 0. -/
def wIdx1 : WatchIdx := [(0, [("a", [1])])]

/-- A one-client table matching wIdx1. -/
def tabEx : ClientTab := [(1, cWatcher)]

/-- A quiet primary server with an empty index. -/
def sv0 : Server := ⟨false, false, false, false, 0, [], [], []⟩

/-- A quiet primary server holding wIdx1. -/
def svIdx : Server := ⟨false, false, false, false, 0, [(0, [("a", [1])])], [], []⟩

/-- A read-only follower server holding wIdx1. -/
def svRo : Server := ⟨false, true, true, false, 0, [(0, [("a", [1])])], [], []⟩

/-- A primary with an active replication backlog. -/
def svPrimary : Server := ⟨false, false, false, true, 5, [], [], []⟩

/-- An idle client with CLIENT_DIRTY_CAS already set. -/
def cDirty : Client := ⟨false, true, false, false, 0, [], CmdFlags.zero, []⟩

/-- A client in MULTI with CLIENT_DIRTY_CAS set, watching "a". -/
def cAbort : Client := ⟨true, true, false, false, 0, [], CmdFlags.zero, [⟨"a", 0⟩]⟩

/-- A client in MULTI whose queued flags carry the write bit, watching "a". -/
def cRoTx : Client := ⟨true, false, false, false, 0, [], ⟨true, false, false⟩, [⟨"a", 0⟩]⟩

/-- A clean client in MULTI with an empty queue. -/
def cEmptyTx : Client := ⟨true, false, false, false, 0, [], CmdFlags.zero, []⟩

/-- A queued write command. -/
def qSet : QueuedCmd := ⟨"SET", ⟨true, false, false⟩, Option.none⟩

/-- A queued write command whose executor turns the server into a follower. -/
def qSetRole : QueuedCmd := ⟨"SET", ⟨true, false, false⟩, some true⟩

/-- A clean client in MULTI with one queued write. -/
def cWriteTx : Client := ⟨true, false, false, false, 0, [qSet], ⟨true, false, false⟩, []⟩

/-- A clean client in MULTI with one queued write that flips the role. -/
def cRoleTx : Client := ⟨true, false, false, false, 0, [qSetRole], ⟨true, false, false⟩, []⟩

/- ===================== association-list lemmas ===================== -/

lemma assocFind_set_self {α β : Type} [DecidableEq α] (l : List (α × β)) (a : α)
    (b : β) : assocFind (assocSet l a b) a = some b := by
  induction l with
  | nil => simp [assocFind, assocSet]
  | cons p rest ih =>
    by_cases h : p.1 = a
    · simp [assocFind, assocSet, h]
    · simp [assocFind, assocSet, h, ih]

lemma assocFind_set_ne {α β : Type} [DecidableEq α] (l : List (α × β)) (a : α)
    (b : β) (a' : α) (h : a' ≠ a) :
    assocFind (assocSet l a b) a' = assocFind l a' := by
  induction l with
  | nil => simp [assocFind, assocSet, Ne.symm h]
  | cons p rest ih =>
    by_cases hp : p.1 = a
    · subst hp
      simp [assocFind, assocSet, Ne.symm h]
    · simp [assocFind, assocSet, hp, ih]

lemma assocFind_del_ne {α β : Type} [DecidableEq α] (l : List (α × β)) (a a' : α)
    (h : a' ≠ a) : assocFind (assocDel l a) a' = assocFind l a' := by
  induction l with
  | nil => simp [assocFind, assocDel]
  | cons p rest ih =>
    by_cases hp : p.1 = a
    · subst hp
      simp [assocFind, assocDel, Ne.symm h]
    · simp [assocFind, assocDel, hp, ih]

lemma assocFind_eq_none_of_not_mem_keys {α β : Type} [DecidableEq α]
    (l : List (α × β)) (a : α) (h : a ∉ l.map Prod.fst) :
    assocFind l a = Option.none := by
  induction l with
  | nil => simp [assocFind]
  | cons p rest ih =>
    simp only [List.map_cons, List.mem_cons, not_or] at h
    simp [assocFind, Ne.symm h.1, ih h.2]

lemma assocFind_del_self {α β : Type} [DecidableEq α] (l : List (α × β)) (a : α)
    (h : (l.map Prod.fst).Nodup) : assocFind (assocDel l a) a = Option.none := by
  induction l with
  | nil => simp [assocFind, assocDel]
  | cons p rest ih =>
    simp only [List.map_cons, List.nodup_cons] at h
    by_cases hp : p.1 = a
    · subst hp
      simp [assocDel, assocFind_eq_none_of_not_mem_keys rest p.1 h.1]
    · simp [assocDel, assocFind, hp, ih h.2]

lemma mem_of_assocFind_some {α β : Type} [DecidableEq α] (l : List (α × β))
    (a : α) (b : β) (h : assocFind l a = some b) : (a, b) ∈ l := by
  induction l with
  | nil => simp [assocFind] at h
  | cons p rest ih =>
    by_cases hp : p.1 = a
    · simp [assocFind, hp] at h
      subst hp
      subst h
      simp
    · simp [assocFind, hp] at h
      exact List.mem_cons_of_mem _ (ih h)

lemma keys_assocSet {α β : Type} [DecidableEq α] (l : List (α × β)) (a : α)
    (b : β) :
    (assocSet l a b).map Prod.fst =
      if a ∈ l.map Prod.fst then l.map Prod.fst else l.map Prod.fst ++ [a] := by
  induction l with
  | nil => simp [assocSet]
  | cons p rest ih =>
    by_cases hp : p.1 = a
    · simp [assocSet, hp]
    · by_cases hm : a ∈ rest.map Prod.fst
      · simp [assocSet, hp, hm, Ne.symm hp, ih]
      · simp [assocSet, hp, hm, Ne.symm hp, ih]

lemma nodup_keys_assocSet {α β : Type} [DecidableEq α] (l : List (α × β))
    (a : α) (b : β) (h : (l.map Prod.fst).Nodup) :
    ((assocSet l a b).map Prod.fst).Nodup := by
  rw [keys_assocSet]
  by_cases hm : a ∈ l.map Prod.fst
  · simpa [hm]
  · simp [hm, List.nodup_append, h]

lemma mem_assocSet {α β : Type} [DecidableEq α] (l : List (α × β)) (a : α)
    (b : β) (q : α × β) (h : q ∈ assocSet l a b) : q ∈ l ∨ q = (a, b) := by
  induction l with
  | nil => simp [assocSet] at h; simp [h]
  | cons p rest ih =>
    by_cases hp : p.1 = a
    · simp [assocSet, hp] at h
      rcases h with h | h
      · right; exact h
      · left; exact List.mem_cons_of_mem _ h
    · simp [assocSet, hp] at h
      rcases h with h | h
      · left; simp [h]
      · rcases ih h with h' | h'
        · left; exact List.mem_cons_of_mem _ h'
        · right; exact h'

lemma mem_assocDel {α β : Type} [DecidableEq α] (l : List (α × β)) (a : α)
    (q : α × β) (h : q ∈ assocDel l a) : q ∈ l := by
  induction l with
  | nil => simp [assocDel] at h
  | cons p rest ih =>
    by_cases hp : p.1 = a
    · simp [assocDel, hp] at h
      exact List.mem_cons_of_mem _ h
    · simp [assocDel, hp] at h
      rcases h with h | h
      · simp [h]
      · exact List.mem_cons_of_mem _ (ih h)

lemma nodup_keys_assocDel {α β : Type} [DecidableEq α] (l : List (α × β))
    (a : α) (h : (l.map Prod.fst).Nodup) :
    ((assocDel l a).map Prod.fst).Nodup := by
  induction l with
  | nil => simp [assocDel]
  | cons p rest ih =>
    simp only [List.map_cons, List.nodup_cons] at h
    by_cases hp : p.1 = a
    · simpa [assocDel, hp] using h.2
    · simp only [assocDel, if_neg hp, List.map_cons, List.nodup_cons]
      refine ⟨?_, ih h.2⟩
      intro hmem
      rcases List.mem_map.mp hmem with ⟨q, hq, hfst⟩
      exact h.1 (List.mem_map.mpr ⟨q, mem_assocDel rest a q hq, hfst⟩)

/- ===================== watch-index lemmas ===================== -/

lemma idxGet_idxSet_self (w : WatchIdx) (db : Nat) (d : KeyDict) :
    idxGet (idxSet w db d) db = d := by
  simp [idxGet, idxSet, assocFind_set_self]

lemma idxGet_idxSet_ne (w : WatchIdx) (db : Nat) (d : KeyDict) (db' : Nat)
    (h : db' ≠ db) : idxGet (idxSet w db d) db' = idxGet w db' := by
  simp [idxGet, idxSet, assocFind_set_ne _ _ _ _ h]

lemma idxClients_idxSet_self (w : WatchIdx) (db : Nat) (d : KeyDict)
    (k : String) : idxClients (idxSet w db d) db k = (dictFetch d k).getD [] := by
  simp [idxClients, idxGet_idxSet_self]

lemma idxClients_idxSet_ne (w : WatchIdx) (db : Nat) (d : KeyDict) (db' : Nat)
    (k : String) (h : db' ≠ db) :
    idxClients (idxSet w db d) db' k = idxClients w db' k := by
  simp [idxClients, idxGet_idxSet_ne _ _ _ _ h]

lemma idxClients_set_cell (w : WatchIdx) (db : Nat) (k : String) (v : List Nat)
    (db' : Nat) (k' : String) :
    idxClients (idxSet w db (dictSet (idxGet w db) k v)) db' k' =
      if db' = db ∧ k' = k then v else idxClients w db' k' := by
  by_cases hdb : db' = db
  · subst hdb
    by_cases hk : k' = k
    · subst hk
      simp [idxClients_idxSet_self, dictFetch, dictSet, assocFind_set_self]
    · rw [idxClients_idxSet_self]
      simp only [dictFetch, dictSet, idxClients]
      rw [assocFind_set_ne _ _ _ _ hk]
      simp [hk]
  · simp [idxClients_idxSet_ne _ _ _ _ _ hdb, hdb]

lemma idxClients_del_cell (w : WatchIdx) (db : Nat) (k : String)
    (hnd : ((idxGet w db).map Prod.fst).Nodup) (db' : Nat) (k' : String) :
    idxClients (idxSet w db (dictDel (idxGet w db) k)) db' k' =
      if db' = db ∧ k' = k then [] else idxClients w db' k' := by
  by_cases hdb : db' = db
  · subst hdb
    by_cases hk : k' = k
    · subst hk
      simp [idxClients_idxSet_self, dictFetch, dictDel,
        assocFind_del_self _ _ hnd]
    · rw [idxClients_idxSet_self]
      simp only [dictFetch, dictDel, idxClients]
      rw [assocFind_del_ne _ _ _ hk]
      simp [hk]
  · simp [idxClients_idxSet_ne _ _ _ _ _ hdb, hdb]

lemma idxGet_mem (w : WatchIdx) (db : Nat) :
    idxGet w db = [] ∨ (db, idxGet w db) ∈ w := by
  unfold idxGet
  cases h : assocFind w db with
  | none => simp
  | some d => exact Or.inr (by simpa using mem_of_assocFind_some w db d h)

lemma cell_mem_struct (w : WatchIdx) (db : Nat) (k : String)
    (h : idxClients w db k ≠ []) :
    (db, idxGet w db) ∈ w ∧ (k, idxClients w db k) ∈ idxGet w db := by
  unfold idxClients at *
  cases hf : dictFetch (idxGet w db) k with
  | none => simp [hf] at h
  | some cs =>
    refine ⟨?_, ?_⟩
    · rcases idxGet_mem w db with hg | hg
      · rw [hg] at hf
        simp [dictFetch, assocFind] at hf
      · exact hg
    · simpa [hf] using mem_of_assocFind_some _ _ _ hf

lemma wfIdx_dict_keys_nodup {w : WatchIdx} (hw : WfIdx w) (db : Nat) :
    ((idxGet w db).map Prod.fst).Nodup := by
  rcases idxGet_mem w db with h | h
  · simp [h]
  · exact ((hw.2 _ h).1)

lemma wfIdx_dict_vals_nodup {w : WatchIdx} (hw : WfIdx w) (db : Nat) :
    ∀ e ∈ idxGet w db, e.2.Nodup := by
  intro e he
  rcases idxGet_mem w db with h | h
  · rw [h] at he
    simp at he
  · exact (hw.2 _ h).2 e he

lemma wfIdx_cell_nodup {w : WatchIdx} (hw : WfIdx w) (db : Nat) (k : String) :
    (idxClients w db k).Nodup := by
  by_cases h : idxClients w db k = []
  · simp [h]
  · rcases cell_mem_struct w db k h with ⟨h1, h2⟩
    exact (hw.2 _ h1).2 _ h2

lemma wfIdx_idxSet {w : WatchIdx} (hw : WfIdx w) (db : Nat) (d : KeyDict)
    (hd1 : (d.map Prod.fst).Nodup) (hd2 : ∀ e ∈ d, e.2.Nodup) :
    WfIdx (idxSet w db d) := by
  refine ⟨nodup_keys_assocSet w db d hw.1, ?_⟩
  intro dp hdp
  rcases mem_assocSet w db d dp hdp with h | h
  · exact hw.2 dp h
  · subst h
    exact ⟨hd1, hd2⟩

lemma unwatchOne_wf (cid : Nat) (w : WatchIdx) (wk : WatchedKey)
    (hw : WfIdx w) : WfIdx (unwatchOne cid w wk) := by
  cases hf : dictFetch (idxGet w wk.db) wk.key with
  | none =>
    simpa only [unwatchOne, hf] using hw
  | some cs =>
    simp only [unwatchOne, hf]
    by_cases hemp : (cs.erase cid).isEmpty = true
    · rw [if_pos hemp]
      refine wfIdx_idxSet hw _ _ ?_ ?_
      · exact nodup_keys_assocDel _ _ (wfIdx_dict_keys_nodup hw wk.db)
      · intro e he
        exact wfIdx_dict_vals_nodup hw wk.db e (mem_assocDel _ _ _ he)
    · rw [if_neg hemp]
      refine wfIdx_idxSet hw _ _ ?_ ?_
      · exact nodup_keys_assocSet _ _ _ (wfIdx_dict_keys_nodup hw wk.db)
      · intro e he
        rcases mem_assocSet _ _ _ _ he with h | h
        · exact wfIdx_dict_vals_nodup hw wk.db e h
        · subst h
          have hcell : idxClients w wk.db wk.key = cs := by
            simp [idxClients, hf]
          exact List.Nodup.erase _ (hcell ▸ wfIdx_cell_nodup hw wk.db wk.key)

lemma unwatchOne_cells (cid : Nat) (w : WatchIdx) (wk : WatchedKey)
    (hw : WfIdx w) (db : Nat) (k : String) :
    idxClients (unwatchOne cid w wk) db k =
      if db = wk.db ∧ k = wk.key then (idxClients w db k).erase cid
      else idxClients w db k := by
  cases hf : dictFetch (idxGet w wk.db) wk.key with
  | none =>
    simp only [unwatchOne, hf]
    by_cases hc : db = wk.db ∧ k = wk.key
    · obtain ⟨h1, h2⟩ := hc
      subst h1
      subst h2
      simp [idxClients, hf]
    · simp [hc]
  | some cs =>
    simp only [unwatchOne, hf]
    have hcell : idxClients w wk.db wk.key = cs := by simp [idxClients, hf]
    by_cases hemp : (cs.erase cid).isEmpty = true
    · rw [if_pos hemp]
      rw [idxClients_del_cell w wk.db wk.key (wfIdx_dict_keys_nodup hw wk.db)
        db k]
      by_cases hc : db = wk.db ∧ k = wk.key
      · obtain ⟨h1, h2⟩ := hc
        subst h1
        subst h2
        simp [hcell, List.isEmpty_iff.mp hemp]
      · simp [hc]
    · rw [if_neg hemp]
      rw [idxClients_set_cell w wk.db wk.key _ db k]
      by_cases hc : db = wk.db ∧ k = wk.key
      · obtain ⟨h1, h2⟩ := hc
        subst h1
        subst h2
        simp [hcell]
      · simp [hc]

lemma unwatchFold_wf (cid : Nat) (l : List WatchedKey) (w : WatchIdx)
    (hw : WfIdx w) : WfIdx (l.foldl (unwatchOne cid) w) := by
  induction l generalizing w with
  | nil => simpa using hw
  | cons wk rest ih => exact ih _ (unwatchOne_wf cid w wk hw)

lemma unwatchFold_cells (cid : Nat) (l : List WatchedKey) (w : WatchIdx)
    (hw : WfIdx w) (hl : l.Nodup) (db : Nat) (k : String) :
    idxClients (l.foldl (unwatchOne cid) w) db k =
      if WatchedKey.mk k db ∈ l then (idxClients w db k).erase cid
      else idxClients w db k := by
  induction l generalizing w with
  | nil => simp
  | cons wk rest ih =>
    have hw1 := unwatchOne_wf cid w wk hw
    have hrest := ih (unwatchOne cid w wk) hw1 (List.Nodup.of_cons hl)
    rw [List.foldl_cons, hrest]
    by_cases hmem : WatchedKey.mk k db ∈ rest
    · have hne : ¬(db = wk.db ∧ k = wk.key) := by
        rintro ⟨h1, h2⟩
        have hwkeq : wk = WatchedKey.mk k db := by
          cases wk
          simp at h1 h2
          simp [h1, h2]
        exact (List.nodup_cons.mp hl).1 (hwkeq ▸ hmem)
      rw [unwatchOne_cells cid w wk hw db k, if_neg hne]
      simp [hmem]
    · by_cases heq : WatchedKey.mk k db = wk
      · rw [if_neg hmem, unwatchOne_cells cid w wk hw db k]
        have hc : db = wk.db ∧ k = wk.key := by
          cases wk
          cases heq
          exact ⟨rfl, rfl⟩
        simp [hc, heq]
      · have hne : ¬(db = wk.db ∧ k = wk.key) := by
          rintro ⟨h1, h2⟩
          apply heq
          cases wk
          simp at h1 h2
          simp [h1, h2]
        rw [if_neg hmem, unwatchOne_cells cid w wk hw db k, if_neg hne]
        have : ¬WatchedKey.mk k db ∈ wk :: rest := by
          simp [hmem, heq]
        simp [hmem, heq]

lemma unwatchAllKeys_fst (cid : Nat) (c : Client) (w : WatchIdx) :
    (unwatchAllKeys cid c w).1 = {c with watched := []} := by
  unfold unwatchAllKeys
  by_cases h : c.watched.isEmpty
  · have he : c.watched = [] := by simpa [List.isEmpty_iff] using h
    cases c
    simp_all
  · simp [h]

lemma unwatchAllKeys_cells (cid : Nat) (c : Client) (w : WatchIdx)
    (hw : WfIdx w) (hnd : c.watched.Nodup) (db : Nat) (k : String) :
    idxClients (unwatchAllKeys cid c w).2 db k =
      if WatchedKey.mk k db ∈ c.watched then (idxClients w db k).erase cid
      else idxClients w db k := by
  unfold unwatchAllKeys
  by_cases h : c.watched.isEmpty
  · have he : c.watched = [] := by simpa [List.isEmpty_iff] using h
    simp [h, he]
  · simp only [h, if_false]
    exact unwatchFold_cells cid c.watched w hw hnd db k

lemma unwatchAllKeys_wf (cid : Nat) (c : Client) (w : WatchIdx)
    (hw : WfIdx w) : WfIdx (unwatchAllKeys cid c w).2 := by
  unfold unwatchAllKeys
  by_cases h : c.watched.isEmpty
  · simpa [h] using hw
  · simpa [h] using unwatchFold_wf cid c.watched w hw

/- ===================== watchForKey lemmas ===================== -/

lemma watchForKey_mem (cid : Nat) (c : Client) (key : String) (w : WatchIdx)
    (h : WatchedKey.mk key c.db ∈ c.watched) :
    watchForKey cid c key w = (c, w) := by
  simp [watchForKey, h]

lemma watchForKey_fst (cid : Nat) (c : Client) (key : String) (w : WatchIdx)
    (h : WatchedKey.mk key c.db ∉ c.watched) :
    (watchForKey cid c key w).1 =
      {c with watched := c.watched ++ [WatchedKey.mk key c.db]} := by
  simp only [watchForKey, if_neg h]

lemma watchForKey_cells (cid : Nat) (c : Client) (key : String) (w : WatchIdx)
    (h : WatchedKey.mk key c.db ∉ c.watched) (db : Nat) (k : String) :
    idxClients (watchForKey cid c key w).2 db k =
      if db = c.db ∧ k = key then idxClients w c.db key ++ [cid]
      else idxClients w db k := by
  cases hf : dictFetch (idxGet w c.db) key with
  | none =>
    have hcell : idxClients w c.db key = [] := by simp [idxClients, hf]
    simp only [watchForKey, if_neg h, hf]
    rw [idxClients_set_cell w c.db key [cid] db k]
    by_cases hc : db = c.db ∧ k = key
    · simp [hc, hcell]
    · simp [hc]
  | some cs =>
    have hcell : idxClients w c.db key = cs := by simp [idxClients, hf]
    simp only [watchForKey, if_neg h, hf]
    rw [idxClients_set_cell w c.db key (cs ++ [cid]) db k]
    by_cases hc : db = c.db ∧ k = key
    · simp [hc, hcell]
    · simp [hc]

lemma watchForKey_wf (cid : Nat) (c : Client) (key : String) (w : WatchIdx)
    (hw : WfIdx w) (hnotin : cid ∉ idxClients w c.db key) :
    WfIdx (watchForKey cid c key w).2 := by
  by_cases h : WatchedKey.mk key c.db ∈ c.watched
  · rw [watchForKey_mem cid c key w h]
    exact hw
  · cases hf : dictFetch (idxGet w c.db) key with
    | none =>
      simp only [watchForKey, if_neg h, hf]
      refine wfIdx_idxSet hw _ _ ?_ ?_
      · exact nodup_keys_assocSet _ _ _ (wfIdx_dict_keys_nodup hw c.db)
      · intro e he
        rcases mem_assocSet _ _ _ _ he with h' | h'
        · exact wfIdx_dict_vals_nodup hw c.db e h'
        · subst h'
          simp
    | some cs =>
      have hcell : idxClients w c.db key = cs := by simp [idxClients, hf]
      simp only [watchForKey, if_neg h, hf]
      refine wfIdx_idxSet hw _ _ ?_ ?_
      · exact nodup_keys_assocSet _ _ _ (wfIdx_dict_keys_nodup hw c.db)
      · intro e he
        rcases mem_assocSet _ _ _ _ he with h' | h'
        · exact wfIdx_dict_vals_nodup hw c.db e h'
        · subst h'
          have hnd : cs.Nodup := hcell ▸ wfIdx_cell_nodup hw c.db key
          have hni : cid ∉ cs := hcell ▸ hnotin
          simp [List.nodup_append, hnd, hni]

/- ===================== client-table lemmas ===================== -/

lemma mapClient_keys (cs : ClientTab) (cid : Nat) (f : Client → Client) :
    (mapClient cs cid f).map Prod.fst = cs.map Prod.fst := by
  induction cs with
  | nil => rfl
  | cons p rest ih =>
    by_cases h : p.1 = cid <;> simp [mapClient, h] <;>
      simpa [mapClient] using ih

lemma nodup_fst_eq {cs : ClientTab} (h : (cs.map Prod.fst).Nodup)
    {p q : Nat × Client} (hp : p ∈ cs) (hq : q ∈ cs) (he : p.1 = q.1) :
    p = q := by
  induction cs with
  | nil => cases hp
  | cons x rest ih =>
    simp only [List.map_cons, List.nodup_cons] at h
    rcases List.mem_cons.mp hp with hp' | hp' <;>
      rcases List.mem_cons.mp hq with hq' | hq'
    · rw [hp', hq']
    · exfalso
      apply h.1
      subst hp'
      exact List.mem_map.mpr ⟨q, hq', he.symm⟩
    · exfalso
      apply h.1
      subst hq'
      exact List.mem_map.mpr ⟨p, hp', he⟩
    · exact ih h.2 hp' hq'

lemma lookupClient_mem (cs : ClientTab) (cid : Nat) (c : Client)
    (h : lookupClient cs cid = some c) : (cid, c) ∈ cs :=
  mem_of_assocFind_some cs cid c h

lemma mapClient_eq_self (cs : ClientTab) (cid : Nat) (c : Client)
    (h1 : (cs.map Prod.fst).Nodup) (hc : (cid, c) ∈ cs) :
    mapClient cs cid (fun _ => c) = cs := by
  unfold mapClient
  rw [show cs.map (fun p => if p.1 = cid then (p.1, c) else p) =
      cs.map (fun p => p) from ?_, List.map_id']
  apply List.map_congr_left
  intro p hp
  by_cases h : p.1 = cid
  · have : p = (cid, c) := nodup_fst_eq h1 hp hc h
    rw [this]
    simp
  · simp [h]

lemma assocFind_of_mem_nodup {α β : Type} [DecidableEq α] (l : List (α × β))
    (h : (l.map Prod.fst).Nodup) (p : α × β) (hp : p ∈ l) :
    assocFind l p.1 = some p.2 := by
  induction l with
  | nil => cases hp
  | cons x rest ih =>
    simp only [List.map_cons, List.nodup_cons] at h
    rcases List.mem_cons.mp hp with hp' | hp'
    · subst hp'
      simp [assocFind]
    · by_cases hx : x.1 = p.1
      · exfalso
        apply h.1
        exact List.mem_map.mpr ⟨p, hp', hx.symm⟩
      · simp [assocFind, hx, ih h.2 hp']

lemma struct_cell {w : WatchIdx} (hw : WfIdx w) {dp : Nat × KeyDict}
    (hdp : dp ∈ w) {e : String × List Nat} (he : e ∈ dp.2) :
    idxClients w dp.1 e.1 = e.2 := by
  have h1 : assocFind w dp.1 = some dp.2 := assocFind_of_mem_nodup w hw.1 dp hdp
  have h2 : assocFind dp.2 e.1 = some e.2 :=
    assocFind_of_mem_nodup dp.2 (hw.2 dp hdp).1 e he
  simp [idxClients, idxGet, dictFetch, h1, h2]

lemma winv_bwd_pair {cs : ClientTab} {w : WatchIdx} (h : WInv cs w)
    {cid : Nat} {c : Client} (hc : (cid, c) ∈ cs) {db : Nat} {k : String}
    (hcell : cid ∈ idxClients w db k) : WatchedKey.mk k db ∈ c.watched := by
  obtain ⟨h1, h2, h3, h4, h5⟩ := h
  have hne : idxClients w db k ≠ [] := by
    intro hempty
    rw [hempty] at hcell
    cases hcell
  rcases cell_mem_struct w db k hne with ⟨hdp, he⟩
  rcases h5 _ hdp _ he _ hcell with ⟨p, hp, hpi, hpw⟩
  have : p = (cid, c) := nodup_fst_eq h1 hp hc hpi
  rw [this] at hpw
  exact hpw

/- ===================== touch characterizations ===================== -/

lemma setDirtyCas_eq_map (ws : List Nat) (cs : ClientTab) :
    setDirtyCas ws cs =
      cs.map (fun p => if p.1 ∈ ws then (p.1, {p.2 with dirty_cas := true})
                       else p) := by
  induction ws generalizing cs with
  | nil => simp [setDirtyCas]
  | cons i ws ih =>
    show setDirtyCas ws (mapClient cs i _) = _
    rw [ih]
    unfold mapClient
    rw [List.map_map]
    apply List.map_congr_left
    intro p _
    by_cases h : p.1 = i
    · by_cases hm : p.1 ∈ ws <;> simp [Function.comp, h, hm]
    · by_cases hm : p.1 ∈ ws <;> simp [Function.comp, h, hm]

lemma touchWatchedKey_eq_map (w : WatchIdx) (db : Nat) (key : String)
    (cs : ClientTab) :
    touchWatchedKey w db key cs =
      cs.map (fun p => if p.1 ∈ idxClients w db key
                       then (p.1, {p.2 with dirty_cas := true}) else p) := by
  unfold touchWatchedKey
  by_cases hemp : (idxGet w db).isEmpty = true
  · have hd : idxGet w db = [] := by simpa [List.isEmpty_iff] using hemp
    have hcell : idxClients w db key = [] := by
      simp [idxClients, hd, dictFetch, assocFind]
    rw [if_pos hemp]
    simp [hcell]
  · rw [if_neg hemp]
    cases hf : dictFetch (idxGet w db) key with
    | none =>
      have hcell : idxClients w db key = [] := by simp [idxClients, hf]
      simp [hcell]
    | some watchers =>
      have hcell : idxClients w db key = watchers := by simp [idxClients, hf]
      show setDirtyCas watchers cs = _
      rw [setDirtyCas_eq_map, hcell]

lemma flushFold (dbid : Int) (st : Stores) (l : List WatchedKey) (c : Client) :
    l.foldl
      (fun acc wk =>
        if dbid = -1 ∨ (wk.db : Int) = dbid then
          if keyExists st wk.db wk.key then {acc with dirty_cas := true}
          else acc
        else acc)
      c =
    {c with dirty_cas := c.dirty_cas || l.any (flushHit dbid st)} := by
  induction l generalizing c with
  | nil => simp
  | cons wk rest ih =>
    rw [List.foldl_cons]
    by_cases hcond : dbid = -1 ∨ (wk.db : Int) = dbid
    · by_cases hex : keyExists st wk.db wk.key = true
      · rw [if_pos hcond, if_pos hex, ih]
        have hhit : flushHit dbid st wk = true := by
          rcases hcond with h | h <;> simp [flushHit, h, hex]
        simp [hhit]
      · rw [if_pos hcond, if_neg hex, ih]
        have hhit : flushHit dbid st wk = false := by
          simp only [flushHit, Bool.and_eq_false_iff]
          right
          simpa using hex
        simp [hhit]
    · rw [if_neg hcond, ih]
      have hhit : flushHit dbid st wk = false := by
        push_neg at hcond
        simp [flushHit, hcond.1, hcond.2]
      simp [hhit]

lemma touchClientOnFlush_eq (dbid : Int) (st : Stores) (c : Client) :
    touchClientOnFlush dbid st c =
      {c with dirty_cas := c.dirty_cas || c.watched.any (flushHit dbid st)} := by
  unfold touchClientOnFlush
  exact flushFold dbid st c.watched c

/- ===================== invariant preservation ===================== -/

lemma winv_dirty_map {cs : ClientTab} {w : WatchIdx}
    (f : Nat × Client → Nat × Client) (h : WInv cs w)
    (hf : ∀ p, (f p).1 = p.1 ∧ (f p).2.watched = p.2.watched) :
    WInv (cs.map f) w := by
  obtain ⟨h1, h2, h3, h4, h5⟩ := h
  refine ⟨?_, h2, ?_, ?_, ?_⟩
  · rw [List.map_map]
    have : (Prod.fst ∘ f) = Prod.fst := by
      funext p
      exact (hf p).1
    rw [this]
    exact h1
  · intro p hp
    rcases List.mem_map.mp hp with ⟨q, hq, hfq⟩
    rw [← hfq, (hf q).2]
    exact h3 q hq
  · intro p hp wk hwk
    rcases List.mem_map.mp hp with ⟨q, hq, hfq⟩
    rw [← hfq] at hwk ⊢
    rw [(hf q).2] at hwk
    rw [(hf q).1]
    exact h4 q hq wk hwk
  · intro dp hdp e he i hi
    rcases h5 dp hdp e he i hi with ⟨p, hp, hpi, hpw⟩
    refine ⟨f p, List.mem_map_of_mem f hp, ?_, ?_⟩
    · rw [(hf p).1, hpi]
    · rw [(hf p).2]
      exact hpw

lemma winv_touchKey {cs : ClientTab} {w : WatchIdx} (h : WInv cs w)
    (db : Nat) (key : String) : WInv (touchWatchedKey w db key cs) w := by
  rw [touchWatchedKey_eq_map]
  apply winv_dirty_map _ h
  intro p
  by_cases hm : p.1 ∈ idxClients w db key <;> simp [hm]

lemma winv_flush {cs : ClientTab} {w : WatchIdx} (h : WInv cs w)
    (dbid : Int) (st : Stores) : WInv (touchWatchedKeysOnFlush dbid st cs) w := by
  unfold touchWatchedKeysOnFlush
  apply winv_dirty_map _ h
  intro p
  simp [touchClientOnFlush_eq]

lemma mem_mapClient_const {cs : ClientTab} {cid : Nat}
    (c' : Client) (p : Nat × Client) (hp : p ∈ mapClient cs cid (fun _ => c')) :
    p = (cid, c') ∨ (p ∈ cs ∧ p.1 ≠ cid) := by
  rcases List.mem_map.mp hp with ⟨q, hq, hfq⟩
  by_cases hqc : q.1 = cid
  · left
    rw [← hfq]
    simp [hqc]
  · right
    rw [← hfq, if_neg hqc]
    exact ⟨hq, hqc⟩

lemma mapClient_const_mem {cs : ClientTab} {cid : Nat} {c : Client}
    (c' : Client) (hc : (cid, c) ∈ cs) :
    (cid, c') ∈ mapClient cs cid (fun _ => c') := by
  unfold mapClient
  refine List.mem_map.mpr ⟨(cid, c), hc, ?_⟩
  simp

lemma mapClient_const_mem_ne {cs : ClientTab} {cid : Nat} (c' : Client)
    {p : Nat × Client} (hp : p ∈ cs) (hne : p.1 ≠ cid) :
    p ∈ mapClient cs cid (fun _ => c') := by
  unfold mapClient
  refine List.mem_map.mpr ⟨p, hp, ?_⟩
  rw [if_neg hne]

lemma winv_lift_entry {cs : ClientTab} {cid : Nat} {c : Client} (c' : Client)
    (h1 : (cs.map Prod.fst).Nodup) (hc : (cid, c) ∈ cs)
    (hsub : ∀ wk ∈ c.watched, wk ∈ c'.watched) {i : Nat} {wk : WatchedKey}
    (h : ∃ p ∈ cs, p.1 = i ∧ wk ∈ p.2.watched) :
    ∃ p ∈ mapClient cs cid (fun _ => c'), p.1 = i ∧ wk ∈ p.2.watched := by
  rcases h with ⟨p, hp, hpi, hpw⟩
  by_cases hpc : p.1 = cid
  · have hpe : p = (cid, c) := nodup_fst_eq h1 hp hc hpc
    refine ⟨(cid, c'), mapClient_const_mem c' hc, by rw [← hpi, hpc], ?_⟩
    apply hsub
    rw [hpe] at hpw
    exact hpw
  · exact ⟨p, mapClient_const_mem_ne c' hp hpc, hpi, hpw⟩

lemma winv_lift_entry_ne {cs : ClientTab} {cid : Nat} (c' : Client) {i : Nat}
    {wk : WatchedKey} (hne : i ≠ cid)
    (h : ∃ p ∈ cs, p.1 = i ∧ wk ∈ p.2.watched) :
    ∃ p ∈ mapClient cs cid (fun _ => c'), p.1 = i ∧ wk ∈ p.2.watched := by
  rcases h with ⟨p, hp, hpi, hpw⟩
  refine ⟨p, mapClient_const_mem_ne c' hp ?_, hpi, hpw⟩
  rw [hpi]
  exact hne

lemma winv_watchOp {cs : ClientTab} {w : WatchIdx} (h : WInv cs w)
    (cid : Nat) (key : String) :
    WInv (watchOp cid key cs w).1 (watchOp cid key cs w).2 := by
  obtain ⟨h1, h2, h3, h4, h5⟩ := h
  cases hl : lookupClient cs cid with
  | none =>
    simp only [watchOp, hl]
    exact ⟨h1, h2, h3, h4, h5⟩
  | some c =>
    simp only [watchOp, hl]
    have hcmem : (cid, c) ∈ cs := lookupClient_mem cs cid c hl
    by_cases hmem : WatchedKey.mk key c.db ∈ c.watched
    · rw [watchForKey_mem cid c key w hmem]
      show WInv (mapClient cs cid (fun _ => c)) w
      rw [mapClient_eq_self cs cid c h1 hcmem]
      exact ⟨h1, h2, h3, h4, h5⟩
    · have hnotin : cid ∉ idxClients w c.db key := fun hin =>
        hmem (winv_bwd_pair ⟨h1, h2, h3, h4, h5⟩ hcmem hin)
      have hfst := watchForKey_fst cid c key w hmem
      have hcells := watchForKey_cells cid c key w hmem
      have hw' := watchForKey_wf cid c key w h2 hnotin
      rw [hfst]
      refine ⟨?_, hw', ?_, ?_, ?_⟩
      · rw [mapClient_keys]
        exact h1
      · intro p hp
        rcases mem_mapClient_const _ p hp with hp' | hp'
        · rw [hp']
          have hnd := h3 _ hcmem
          simp [List.nodup_append, hnd, hmem]
        · exact h3 _ hp'.1
      · intro p hp wk hwk
        rw [hcells]
        rcases mem_mapClient_const _ p hp with hp' | hp'
        · rw [hp'] at hwk ⊢
          simp only at hwk
          rcases List.mem_append.mp hwk with hoa | hob
          · have hold := h4 _ hcmem wk hoa
            by_cases hc : wk.db = c.db ∧ wk.key = key
            · rw [if_pos hc]
              rw [hc.1, hc.2] at hold
              exact List.mem_append.mpr (Or.inl hold)
            · rw [if_neg hc]
              exact hold
          · simp only [List.mem_singleton] at hob
            rw [hob]
            simp
        · have hold := h4 _ hp'.1 wk hwk
          by_cases hc : wk.db = c.db ∧ wk.key = key
          · rw [if_pos hc]
            rw [hc.1, hc.2] at hold
            exact List.mem_append.mpr (Or.inl hold)
          · rw [if_neg hc]
            exact hold
      · intro dp hdp e he i hi
        have hcellval := struct_cell hw' hdp he
        rw [← hcellval, hcells dp.1 e.1] at hi
        have hsub : ∀ wk ∈ c.watched,
            wk ∈ ({c with watched := c.watched ++ [WatchedKey.mk key c.db]} :
              Client).watched := by
          intro wk hwk
          exact List.mem_append.mpr (Or.inl hwk)
        by_cases hc : dp.1 = c.db ∧ e.1 = key
        · rw [if_pos hc] at hi
          rw [hc.1, hc.2]
          rcases List.mem_append.mp hi with hia | hib
          · have hne : idxClients w c.db key ≠ [] := List.ne_nil_of_mem hia
            rcases cell_mem_struct w c.db key hne with ⟨hdpo, heo⟩
            exact winv_lift_entry _ h1 hcmem hsub (h5 _ hdpo _ heo _ hia)
          · simp only [List.mem_singleton] at hib
            subst hib
            refine ⟨(i, {c with watched := c.watched ++ [WatchedKey.mk key c.db]}),
              mapClient_const_mem _ hcmem, rfl, ?_⟩
            simp
        · rw [if_neg hc] at hi
          have hne : idxClients w dp.1 e.1 ≠ [] := List.ne_nil_of_mem hi
          rcases cell_mem_struct w dp.1 e.1 hne with ⟨hdpo, heo⟩
          exact winv_lift_entry _ h1 hcmem hsub (h5 _ hdpo _ heo _ hi)

lemma winv_unwatchOp {cs : ClientTab} {w : WatchIdx} (h : WInv cs w)
    (cid : Nat) : WInv (unwatchOp cid cs w).1 (unwatchOp cid cs w).2 := by
  obtain ⟨h1, h2, h3, h4, h5⟩ := h
  cases hl : lookupClient cs cid with
  | none =>
    simp only [unwatchOp, hl]
    exact ⟨h1, h2, h3, h4, h5⟩
  | some c =>
    simp only [unwatchOp, hl]
    have hcmem : (cid, c) ∈ cs := lookupClient_mem cs cid c hl
    have hnd := h3 _ hcmem
    have hfst := unwatchAllKeys_fst cid c w
    have hcells := unwatchAllKeys_cells cid c w h2 hnd
    have hw' := unwatchAllKeys_wf cid c w h2
    rw [hfst]
    refine ⟨?_, hw', ?_, ?_, ?_⟩
    · rw [mapClient_keys]
      exact h1
    · intro p hp
      rcases mem_mapClient_const _ p hp with hp' | hp'
      · rw [hp']
        simp
      · exact h3 _ hp'.1
    · intro p hp wk hwk
      rcases mem_mapClient_const _ p hp with hp' | hp'
      · rw [hp'] at hwk
        simp at hwk
      · have hold := h4 _ hp'.1 wk hwk
        rw [hcells wk.db wk.key]
        by_cases hc : WatchedKey.mk wk.key wk.db ∈ c.watched
        · rw [if_pos hc]
          exact (List.mem_erase_of_ne hp'.2).mpr hold
        · rw [if_neg hc]
          exact hold
    · intro dp hdp e he i hi
      have hcellval := struct_cell hw' hdp he
      rw [← hcellval, hcells dp.1 e.1] at hi
      by_cases hc : WatchedKey.mk e.1 dp.1 ∈ c.watched
      · rw [if_pos hc] at hi
        have hcellnd := wfIdx_cell_nodup h2 dp.1 e.1
        have hine := (List.Nodup.mem_erase_iff hcellnd).mp hi
        have hne : idxClients w dp.1 e.1 ≠ [] := List.ne_nil_of_mem hine.2
        rcases cell_mem_struct w dp.1 e.1 hne with ⟨hdpo, heo⟩
        exact winv_lift_entry_ne _ hine.1 (h5 _ hdpo _ heo _ hine.2)
      · rw [if_neg hc] at hi
        have hne : idxClients w dp.1 e.1 ≠ [] := List.ne_nil_of_mem hi
        rcases cell_mem_struct w dp.1 e.1 hne with ⟨hdpo, heo⟩
        have hex := h5 _ hdpo _ heo _ hi
        have hine : i ≠ cid := by
          rintro rfl
          rcases hex with ⟨p, hp, hpi, hpw⟩
          have hpe : p = (i, c) := nodup_fst_eq h1 hp hcmem hpi
          rw [hpe] at hpw
          exact hc hpw
        exact winv_lift_entry_ne _ hine hex

/- ===================== EXEC drain lemmas ===================== -/

lemma execDrain_eq (c : Client) (qs : List QueuedCmd) (mp : Bool) (s : Server) :
    execDrain c qs mp s =
      ({s with sink := s.sink ++ emitFrames c.db s.loading qs mp,
               masterhost := drainMasterhost qs s.masterhost},
       mp || qs.any isTrigger,
       qs.map (fun q => Reply.result q.name)) := by
  induction qs generalizing mp s with
  | nil => simp [execDrain, emitFrames, drainMasterhost]
  | cons q qs ih =>
    cases hsm : q.setMaster with
    | none =>
      by_cases hmp : mp = true <;> by_cases htr : isTrigger q = true <;>
        by_cases hw : (!s.loading && q.flags.write) = true <;>
          simp [execDrain, callQueued, execCommandPropagateMulti, emitFrames,
            drainMasterhost, ih, hmp, htr, hw, hsm, List.append_assoc]
    | some m =>
      by_cases hmp : mp = true <;> by_cases htr : isTrigger q = true <;>
        by_cases hw : (!s.loading && q.flags.write) = true <;>
          simp [execDrain, callQueued, execCommandPropagateMulti, emitFrames,
            drainMasterhost, ih, hmp, htr, hw, hsm, List.append_assoc]

lemma emitFrames_count_multi (db : Nat) (loading : Bool) (qs : List QueuedCmd)
    (hnames : ∀ q ∈ qs, q.name ≠ "MULTI") (mp : Bool) :
    List.count (PropFrame.mk "MULTI" db) (emitFrames db loading qs mp) =
      if mp then 0 else (if qs.any isTrigger then 1 else 0) := by
  induction qs generalizing mp with
  | nil => simp [emitFrames]
  | cons q qs ih =>
    have hq : q.name ≠ "MULTI" := hnames q (List.mem_cons_self q qs)
    have hrest : ∀ p ∈ qs, p.name ≠ "MULTI" := fun p hp =>
      hnames p (List.mem_cons_of_mem q hp)
    have hcmd : List.count (PropFrame.mk "MULTI" db)
        (if loading = false ∧ q.flags.write = true then [PropFrame.mk q.name db]
         else []) = 0 := by
      by_cases hb : loading = false ∧ q.flags.write = true <;>
        simp [hb, List.count_cons, PropFrame.mk.injEq, hq]
    by_cases hmp : mp = true <;> by_cases htr : isTrigger q = true <;>
      simp [emitFrames, hmp, htr, List.count_append, ih hrest,
        List.count_cons, PropFrame.mk.injEq, hq, hcmd]

lemma emitFrames_nil_of_no_trigger (db : Nat) (loading : Bool)
    (qs : List QueuedCmd)
    (hwf : ∀ q ∈ qs, q.flags.write = true → isTrigger q = true)
    (h : qs.any isTrigger = false) (mp : Bool) :
    emitFrames db loading qs mp = [] := by
  induction qs generalizing mp with
  | nil => simp [emitFrames]
  | cons q qs ih =>
    simp only [List.any_cons, Bool.or_eq_false_iff] at h
    have hnw : (!loading && q.flags.write) = false := by
      by_cases hb : q.flags.write = true
      · exact absurd (hwf q (List.mem_cons_self q qs) hb) (by simp [h.1])
      · have hb' : q.flags.write = false := by simpa using hb
        simp [hb']
    have hrest : ∀ p ∈ qs, p.flags.write = true → isTrigger p = true :=
      fun p hp => hwf p (List.mem_cons_of_mem q hp)
    simp [emitFrames, h.1, hnw, ih hrest h.2]

lemma emitFrames_head_multi (db : Nat) (loading : Bool) (qs : List QueuedCmd)
    (hwf : ∀ q ∈ qs, q.flags.write = true → isTrigger q = true)
    (h : qs.any isTrigger = true) :
    (emitFrames db loading qs false).head? = some (PropFrame.mk "MULTI" db) := by
  induction qs with
  | nil => simp at h
  | cons q qs ih =>
    by_cases htr : isTrigger q = true
    · simp [emitFrames, htr]
    · have hnw : (!loading && q.flags.write) = false := by
        by_cases hb : q.flags.write = true
        · exact absurd (hwf q (List.mem_cons_self q qs) hb) htr
        · have hb' : q.flags.write = false := by simpa using hb
          simp [hb']
      have hany : qs.any isTrigger = true := by
        simpa [htr] using h
      have hrest : ∀ p ∈ qs, p.flags.write = true → isTrigger p = true :=
        fun p hp => hwf p (List.mem_cons_of_mem q hp)
      simpa [emitFrames, htr, hnw] using ih hrest hany

/- ===================== discard and unwatch-complete lemmas ============== -/

lemma discardTransaction_fst (cid : Nat) (c : Client) (w : WatchIdx) :
    (discardTransaction cid c w).1 =
      {c with multi := false, dirty_cas := false, dirty_exec := false,
              queue := [], queued_flags := CmdFlags.zero, watched := []} := by
  unfold discardTransaction initClientMultiState
  rw [unwatchAllKeys_fst]

lemma unwatchAllKeys_not_mem (cid : Nat) (c : Client) (w : WatchIdx)
    (hw : WfIdx w) (hnd : c.watched.Nodup)
    (hbwd : ∀ db k, cid ∈ idxClients w db k → WatchedKey.mk k db ∈ c.watched)
    (db : Nat) (k : String) :
    cid ∉ idxClients (unwatchAllKeys cid c w).2 db k := by
  rw [unwatchAllKeys_cells cid c w hw hnd db k]
  by_cases hc : WatchedKey.mk k db ∈ c.watched
  · rw [if_pos hc]
    intro hmem
    have := (List.Nodup.mem_erase_iff (wfIdx_cell_nodup hw db k)).mp hmem
    exact this.1 rfl
  · rw [if_neg hc]
    intro hmem
    exact hc (hbwd db k hmem)

lemma cells_bwd_of_struct {w : WatchIdx} {cid : Nat} {c : Client}
    (h : ∀ dp ∈ w, ∀ e ∈ dp.2, cid ∈ e.2 → WatchedKey.mk e.1 dp.1 ∈ c.watched) :
    ∀ db k, cid ∈ idxClients w db k → WatchedKey.mk k db ∈ c.watched := by
  intro db k hmem
  have hne := List.ne_nil_of_mem hmem
  rcases cell_mem_struct w db k hne with ⟨hdp, he⟩
  exact h _ hdp _ he hmem

lemma winv_bi1 {cs : ClientTab} {w : WatchIdx} (h : WInv cs w) :
    ∀ p ∈ cs, ∀ db k,
      (p.1 ∈ idxClients w db k ↔ WatchedKey.mk k db ∈ p.2.watched) := by
  obtain ⟨h1, h2, h3, h4, h5⟩ := h
  intro p hp db k
  constructor
  · intro hin
    have hc : (p.1, p.2) ∈ cs := by simpa using hp
    exact winv_bwd_pair ⟨h1, h2, h3, h4, h5⟩ hc hin
  · intro hwk
    exact h4 p hp (WatchedKey.mk k db) hwk

lemma flushTouch_eq_map (dbid : Int) (st : Stores) (cs : ClientTab) :
    touchWatchedKeysOnFlush dbid st cs =
      cs.map (fun p => (p.1,
        {p.2 with dirty_cas :=
          p.2.dirty_cas || p.2.watched.any (flushHit dbid st)})) := by
  unfold touchWatchedKeysOnFlush
  simp only [touchClientOnFlush_eq]

/- ===================== claim theorems ===================== -/

/-- C5: touchWatchedKeysOnFlush sets dirty_cas for exactly those clients
having a watched key whose db matches the argument (dbid = -1 meaning all
databases) and which currently exists in the underlying store at call time;
a watched key absent from the store does not set the flag, every other field
of every client is unchanged, and no structure changes. -/
theorem c5_flush_touch_exact (dbid : Int) (st : Stores) (cs : ClientTab) :
    touchWatchedKeysOnFlush dbid st cs =
      cs.map (fun p => (p.1,
        {p.2 with dirty_cas :=
          p.2.dirty_cas || p.2.watched.any (flushHit dbid st)})) :=
  flushTouch_eq_map dbid st cs

/-- C4: touchWatchedKey sets dirty_cas to true exactly for the clients on the
per-key watcher list of (db, key) — under the invariant exactly the clients
watching (db, key) — leaves the dirty_cas of every other client unchanged,
and makes no structural change (client ids and watched lists untouched; the
index is not modified by the operation). -/
theorem c4_touch_sets_watchers (w : WatchIdx) (db : Nat) (key : String)
    (cs : ClientTab) (h : WInv cs w) :
    touchWatchedKey w db key cs =
      cs.map (fun p => if p.1 ∈ idxClients w db key
                       then (p.1, {p.2 with dirty_cas := true}) else p) ∧
    (∀ p ∈ cs,
      (p.1 ∈ idxClients w db key ↔ WatchedKey.mk key db ∈ p.2.watched)) ∧
    (touchWatchedKey w db key cs).map (fun p => (p.1, p.2.watched)) =
      cs.map (fun p => (p.1, p.2.watched)) := by
  refine ⟨touchWatchedKey_eq_map w db key cs, ?_, ?_⟩
  · intro p hp
    exact winv_bi1 h p hp db key
  · rw [touchWatchedKey_eq_map, List.map_map]
    apply List.map_congr_left
    intro p _
    by_cases hm : p.1 ∈ idxClients w db key <;> simp [Function.comp, hm]

/-- C2: bidirectional consistency of the watch index — under the invariant a
client id is on the per-key list of (db, key) iff the pair is in that
client's watched list — and the invariant is preserved by watch,
unwatch-all, touch and touch-on-flush. -/
theorem c2_watch_index_bidirectional (cs : ClientTab) (w : WatchIdx)
    (h : WInv cs w) :
    (∀ p ∈ cs, ∀ db k,
      (p.1 ∈ idxClients w db k ↔ WatchedKey.mk k db ∈ p.2.watched)) ∧
    (∀ cid key, WInv (watchOp cid key cs w).1 (watchOp cid key cs w).2) ∧
    (∀ cid, WInv (unwatchOp cid cs w).1 (unwatchOp cid cs w).2) ∧
    (∀ db key, WInv (touchWatchedKey w db key cs) w) ∧
    (∀ dbid st, WInv (touchWatchedKeysOnFlush dbid st cs) w) :=
  ⟨winv_bi1 h, fun cid key => winv_watchOp h cid key,
   fun cid => winv_unwatchOp h cid,
   fun db key => winv_touchKey h db key,
   fun dbid st => winv_flush h dbid st⟩

/-- C8: watchForKey is idempotent per client — when the (db, key) pair is
already watched by the client (same db, key compared by value) the call is a
no-op on both sides; watching the same key twice equals watching it once;
and the pair appears at most once in a client's watched list. -/
theorem c8_watch_idempotent :
    (∀ (cid : Nat) (c : Client) (key : String) (w : WatchIdx),
      WatchedKey.mk key c.db ∈ c.watched → watchForKey cid c key w = (c, w)) ∧
    (∀ (cid : Nat) (c : Client) (key : String) (w : WatchIdx),
      watchForKey cid (watchForKey cid c key w).1 key
          (watchForKey cid c key w).2 =
        watchForKey cid c key w) ∧
    (∀ (cid : Nat) (c : Client) (key : String) (w : WatchIdx),
      c.watched.Nodup → ((watchForKey cid c key w).1).watched.Nodup) := by
  refine ⟨watchForKey_mem, ?_, ?_⟩
  · intro cid c key w
    by_cases hmem : WatchedKey.mk key c.db ∈ c.watched
    · rw [watchForKey_mem cid c key w hmem]
      exact watchForKey_mem cid c key w hmem
    · have hfst := watchForKey_fst cid c key w hmem
      have hmem2 : WatchedKey.mk key ((watchForKey cid c key w).1).db ∈
          ((watchForKey cid c key w).1).watched := by
        rw [hfst]
        simp
      rw [watchForKey_mem cid _ key _ hmem2]
  · intro cid c key w hnd
    by_cases hmem : WatchedKey.mk key c.db ∈ c.watched
    · rw [watchForKey_mem cid c key w hmem]
      exact hnd
    · rw [watchForKey_fst cid c key w hmem]
      simp [List.nodup_append, hnd, hmem]

/-- C3: dirty_cas survives MULTI entry and every non-terminal operation; it
is cleared only by UNWATCH and by the discard path run by the terminal
transitions; consequently a touch between WATCH and MULTI still makes the
following EXEC reply with the null batch. -/
theorem c3_dirty_cas_persistence :
    (∀ c : Client, ((multiCommand c).1).dirty_cas = c.dirty_cas) ∧
    (∀ (cid : Nat) (c : Client) (key : String) (w : WatchIdx),
      ((watchForKey cid c key w).1).dirty_cas = c.dirty_cas) ∧
    (∀ (w : WatchIdx) (db : Nat) (key : String) (cs : ClientTab),
      ∀ p ∈ cs, p.2.dirty_cas = true →
        ∃ q ∈ touchWatchedKey w db key cs, q.1 = p.1 ∧ q.2.dirty_cas = true) ∧
    (∀ (dbid : Int) (st : Stores) (cs : ClientTab),
      ∀ p ∈ cs, p.2.dirty_cas = true →
        ∃ q ∈ touchWatchedKeysOnFlush dbid st cs,
          q.1 = p.1 ∧ q.2.dirty_cas = true) ∧
    (∀ (cid : Nat) (c : Client) (w : WatchIdx),
      ((unwatchCommand cid c w).1).dirty_cas = false) ∧
    (∀ (cid : Nat) (c : Client) (w : WatchIdx),
      ((discardTransaction cid c w).1).dirty_cas = false) ∧
    (∀ (cid : Nat) (c : Client) (s : Server),
      c.multi = false → c.dirty_cas = true → c.dirty_exec = false →
        (execCommand cid (multiCommand c).1 s).2.2 = [Reply.nullArray]) := by
  refine ⟨?_, ?_, ?_, ?_, ?_, ?_, ?_⟩
  · intro c
    by_cases h : c.multi = true <;> simp [multiCommand, h]
  · intro cid c key w
    by_cases hmem : WatchedKey.mk key c.db ∈ c.watched
    · rw [watchForKey_mem cid c key w hmem]
    · rw [watchForKey_fst cid c key w hmem]
  · intro w db key cs p hp hdc
    rw [touchWatchedKey_eq_map]
    refine ⟨(if p.1 ∈ idxClients w db key
             then (p.1, {p.2 with dirty_cas := true}) else p),
      List.mem_map_of_mem _ hp, ?_, ?_⟩ <;>
      by_cases hm : p.1 ∈ idxClients w db key <;> simp [hm, hdc]
  · intro dbid st cs p hp hdc
    rw [flushTouch_eq_map]
    exact ⟨(p.1, {p.2 with dirty_cas :=
        p.2.dirty_cas || p.2.watched.any (flushHit dbid st)}),
      List.mem_map_of_mem _ hp, rfl, by simp [hdc]⟩
  · intro cid c w
    simp [unwatchCommand]
  · intro cid c w
    rw [discardTransaction_fst]
  · intro cid c s hm hdc hde
    simp [multiCommand, hm, execCommand, hdc, hde]

/-- C1: EXEC in MULTI with a dirty flag set replies with the abort error when
DIRTY_EXEC is set and with the null multi-bulk otherwise; no queued command
runs (sink, dirty counter and backlog untouched) and the transaction is
terminated — queue and flags cleared, client out of MULTI, all keys
unwatched, the client gone from every per-key watcher list. -/
theorem c1_exec_abort_on_dirty (cid : Nat) (c : Client) (s : Server)
    (hm : c.multi = true) (hd : c.dirty_cas = true ∨ c.dirty_exec = true)
    (hw : WfIdx s.idx) (hnd : c.watched.Nodup)
    (hbwd : ∀ dp ∈ s.idx, ∀ e ∈ dp.2, cid ∈ e.2 →
      WatchedKey.mk e.1 dp.1 ∈ c.watched) :
    (execCommand cid c s).2.2 =
      [if c.dirty_exec then Reply.err execAbortErr else Reply.nullArray] ∧
    (execCommand cid c s).1 =
      {c with multi := false, dirty_cas := false, dirty_exec := false,
              queue := [], queued_flags := CmdFlags.zero, watched := []} ∧
    (execCommand cid c s).2.1.sink = s.sink ∧
    (execCommand cid c s).2.1.dirty = s.dirty ∧
    (execCommand cid c s).2.1.backlog = s.backlog ∧
    (∀ db k, cid ∉ idxClients (execCommand cid c s).2.1.idx db k) := by
  have hcond : (c.dirty_cas || c.dirty_exec) = true := by
    rcases hd with h | h <;> simp [h]
  refine ⟨?_, ?_, ?_, ?_, ?_, ?_⟩
  · simp [execCommand, hm, hcond]
  · rw [show (execCommand cid c s).1 = (discardTransaction cid c s.idx).1 from
      by simp [execCommand, hm, hcond]]
    exact discardTransaction_fst cid c s.idx
  · simp [execCommand, hm, hcond]
  · simp [execCommand, hm, hcond]
  · simp [execCommand, hm, hcond]
  · intro db k
    rw [show (execCommand cid c s).2.1.idx = (discardTransaction cid c s.idx).2
      from by simp [execCommand, hm, hcond]]
    unfold discardTransaction initClientMultiState
    exact unwatchAllKeys_not_mem cid
      {c with multi := false, dirty_cas := false, dirty_exec := false,
              queue := [], queued_flags := CmdFlags.zero}
      s.idx hw hnd (cells_bwd_of_struct hbwd) db k

/-- C7: EXEC on a read-only follower (not loading, primary configured,
follower writes off), invoked by a client that is not the replication link,
with a write bit in the accumulated queued flags, replies with the read-only
follower error, executes nothing and terminates the transaction. -/
theorem c7_exec_readonly_follower (cid : Nat) (c : Client) (s : Server)
    (hm : c.multi = true) (hcas : c.dirty_cas = false)
    (hexec : c.dirty_exec = false) (hld : s.loading = false)
    (hmh : s.masterhost = true) (hro : s.repl_slave_ro = true)
    (hcm : c.is_master = false) (hqw : c.queued_flags.write = true)
    (hw : WfIdx s.idx) (hnd : c.watched.Nodup)
    (hbwd : ∀ dp ∈ s.idx, ∀ e ∈ dp.2, cid ∈ e.2 →
      WatchedKey.mk e.1 dp.1 ∈ c.watched) :
    (execCommand cid c s).2.2 = [Reply.err roSlaveErr] ∧
    (execCommand cid c s).1 =
      {c with multi := false, dirty_cas := false, dirty_exec := false,
              queue := [], queued_flags := CmdFlags.zero, watched := []} ∧
    (execCommand cid c s).2.1.sink = s.sink ∧
    (execCommand cid c s).2.1.dirty = s.dirty ∧
    (execCommand cid c s).2.1.backlog = s.backlog ∧
    (∀ db k, cid ∉ idxClients (execCommand cid c s).2.1.idx db k) := by
  refine ⟨?_, ?_, ?_, ?_, ?_, ?_⟩
  · simp [execCommand, hm, hcas, hexec, hld, hmh, hro, hcm, hqw]
  · rw [show (execCommand cid c s).1 = (discardTransaction cid c s.idx).1 from
      by simp [execCommand, hm, hcas, hexec, hld, hmh, hro, hcm, hqw]]
    exact discardTransaction_fst cid c s.idx
  · simp [execCommand, hm, hcas, hexec, hld, hmh, hro, hcm, hqw]
  · simp [execCommand, hm, hcas, hexec, hld, hmh, hro, hcm, hqw]
  · simp [execCommand, hm, hcas, hexec, hld, hmh, hro, hcm, hqw]
  · intro db k
    rw [show (execCommand cid c s).2.1.idx = (discardTransaction cid c s.idx).2
      from by simp [execCommand, hm, hcas, hexec, hld, hmh, hro, hcm, hqw]]
    unfold discardTransaction initClientMultiState
    exact unwatchAllKeys_not_mem cid
      {c with multi := false, dirty_cas := false, dirty_exec := false,
              queue := [], queued_flags := CmdFlags.zero}
      s.idx hw hnd (cells_bwd_of_struct hbwd) db k

/-- C10: EXEC in MULTI with an empty queue and clean flags succeeds with a
multi-bulk array of length zero; nothing is executed or propagated, the
dirty counter, backlog and role are untouched, and the client is left idle
with empty queue, empty watched set and clean flags. -/
theorem c10_exec_empty_batch (cid : Nat) (c : Client) (s : Server)
    (hm : c.multi = true) (hcas : c.dirty_cas = false)
    (hexec : c.dirty_exec = false) (hq : c.queue = [])
    (hqw : c.queued_flags.write = false) :
    (execCommand cid c s).2.2 = [Reply.arrayLen 0] ∧
    (execCommand cid c s).1 =
      {c with multi := false, dirty_cas := false, dirty_exec := false,
              queue := [], queued_flags := CmdFlags.zero, watched := []} ∧
    (execCommand cid c s).2.1.sink = s.sink ∧
    (execCommand cid c s).2.1.dirty = s.dirty ∧
    (execCommand cid c s).2.1.backlog = s.backlog ∧
    (execCommand cid c s).2.1.masterhost = s.masterhost := by
  have hfst := unwatchAllKeys_fst cid c s.idx
  refine ⟨?_, ?_, ?_, ?_, ?_, ?_⟩ <;>
    simp [execCommand, hm, hcas, hexec, hqw, hfst, hq, execDrain,
      discardTransaction_fst, Client.mk.injEq]

/-- C6: lazy MULTI propagation during the EXEC drain — must_propagate ends
true exactly when some queued entry is neither read-only nor administrative;
the drain appends exactly the characterized frame stream to the sink, in
which the synthetic MULTI frame occurs exactly once when a trigger exists
(and first, i.e. at the first trigger entry) and never otherwise; when every
entry is read-only or administrative the batch emits nothing at all. -/
theorem c6_lazy_multi_propagation (c : Client) (s : Server)
    (hnames : ∀ q ∈ c.queue, q.name ≠ "MULTI")
    (hwf : ∀ q ∈ c.queue, q.flags.write = true → isTrigger q = true) :
    ((execDrain c c.queue false s).2.1 = c.queue.any isTrigger) ∧
    ((execDrain c c.queue false s).1.sink =
      s.sink ++ emitFrames c.db s.loading c.queue false) ∧
    (List.count (PropFrame.mk "MULTI" c.db)
        (emitFrames c.db s.loading c.queue false) =
      if c.queue.any isTrigger then 1 else 0) ∧
    (c.queue.any isTrigger = false →
      emitFrames c.db s.loading c.queue false = []) ∧
    (c.queue.any isTrigger = true →
      (emitFrames c.db s.loading c.queue false).head? =
        some (PropFrame.mk "MULTI" c.db)) := by
  refine ⟨?_, ?_, ?_, ?_, ?_⟩
  · rw [execDrain_eq]
    simp
  · rw [execDrain_eq]
  · rw [emitFrames_count_multi c.db s.loading c.queue hnames false]
    simp
  · intro h
    exact emitFrames_nil_of_no_trigger c.db s.loading c.queue hwf h false
  · intro h
    exact emitFrames_head_multi c.db s.loading c.queue hwf h

/-- C9: after a drain that propagated (must_propagate true), execCommand
increments the server dirty counter by one, and — when the replication
backlog is active — appends the raw EXEC frame to the backlog exactly when
the server was a primary at EXEC entry and is a follower after the drain;
when nothing was propagated neither the counter nor the backlog changes. -/
theorem c9_exec_finalize_propagation (cid : Nat) (c : Client) (s : Server)
    (hm : c.multi = true) (hcas : c.dirty_cas = false)
    (hexec : c.dirty_exec = false)
    (hgate : (!s.loading && s.masterhost && s.repl_slave_ro && !c.is_master &&
      c.queued_flags.write) = false)
    (hbk : s.repl_backlog = true) :
    (execCommand cid c s).2.1.dirty =
      s.dirty + (if c.queue.any isTrigger then 1 else 0) ∧
    (execCommand cid c s).2.1.backlog =
      s.backlog ++
        (if c.queue.any isTrigger && !s.masterhost &&
            drainMasterhost c.queue s.masterhost then [execBacklogBytes]
         else []) := by
  have hfst := unwatchAllKeys_fst cid c s.idx
  by_cases hwm : s.masterhost = true
  · have hg : ¬(((s.loading = false ∧ s.repl_slave_ro = true) ∧
        c.is_master = false) ∧ c.queued_flags.write = true) := by
      rintro ⟨⟨⟨hl, hro⟩, him⟩, hqw⟩
      rw [hl, hro, him, hqw, hwm] at hgate
      simp at hgate
    constructor <;> by_cases hmp : c.queue.any isTrigger = true <;>
      simp [execCommand, hm, hcas, hexec, hg, hbk, hfst, execDrain_eq,
        hmp, hwm]
  · have hwm' : s.masterhost = false := by simpa using hwm
    constructor <;> by_cases hmp : c.queue.any isTrigger = true <;>
      by_cases hdm : drainMasterhost c.queue false = true <;>
        simp [execCommand, hm, hcas, hexec, hbk, hfst, execDrain_eq,
          hmp, hwm', hdm]

/- ===================== closed instances ===================== -/

theorem c4_touch_sets_watchers_witness :
    WInv tabEx wIdx1 ∧
    (∀ p ∈ tabEx, (p.1 ∈ idxClients wIdx1 0 "a" ↔
      WatchedKey.mk "a" 0 ∈ p.2.watched)) :=
  ⟨by decide, (c4_touch_sets_watchers wIdx1 0 "a" tabEx (by decide)).2.1⟩

theorem c2_watch_index_bidirectional_witness :
    WInv tabEx wIdx1 ∧
    WInv (watchOp 1 "b" tabEx wIdx1).1 (watchOp 1 "b" tabEx wIdx1).2 :=
  ⟨by decide, (c2_watch_index_bidirectional tabEx wIdx1 (by decide)).2.1 1 "b"⟩

theorem c8_watch_idempotent_witness :
    WatchedKey.mk "a" cWatcher.db ∈ cWatcher.watched ∧
    watchForKey 1 cWatcher "a" wIdx1 = (cWatcher, wIdx1) :=
  ⟨by decide, c8_watch_idempotent.1 1 cWatcher "a" wIdx1 (by decide)⟩

theorem c3_dirty_cas_persistence_witness :
    cDirty.multi = false ∧ cDirty.dirty_cas = true ∧
    cDirty.dirty_exec = false ∧
    (execCommand 0 (multiCommand cDirty).1 sv0).2.2 = [Reply.nullArray] :=
  ⟨by decide, by decide, by decide,
   c3_dirty_cas_persistence.2.2.2.2.2.2 0 cDirty sv0
     (by decide) (by decide) (by decide)⟩

theorem c1_exec_abort_on_dirty_witness :
    cAbort.multi = true ∧
    (cAbort.dirty_cas = true ∨ cAbort.dirty_exec = true) ∧
    (execCommand 1 cAbort svIdx).2.2 =
      [if cAbort.dirty_exec then Reply.err execAbortErr else Reply.nullArray] :=
  ⟨by decide, by decide,
   (c1_exec_abort_on_dirty 1 cAbort svIdx (by decide) (by decide)
     (by decide) (by decide) (by decide)).1⟩

theorem c7_exec_readonly_follower_witness :
    cRoTx.multi = true ∧ cRoTx.queued_flags.write = true ∧
    svRo.masterhost = true ∧ svRo.repl_slave_ro = true ∧
    (execCommand 1 cRoTx svRo).2.2 = [Reply.err roSlaveErr] :=
  ⟨by decide, by decide, by decide, by decide,
   (c7_exec_readonly_follower 1 cRoTx svRo (by decide) (by decide)
     (by decide) (by decide) (by decide) (by decide) (by decide)
     (by decide) (by decide) (by decide) (by decide)).1⟩

theorem c10_exec_empty_batch_witness :
    cEmptyTx.multi = true ∧ cEmptyTx.queue = [] ∧
    (execCommand 0 cEmptyTx sv0).2.2 = [Reply.arrayLen 0] :=
  ⟨by decide, by decide,
   (c10_exec_empty_batch 0 cEmptyTx sv0 (by decide) (by decide)
     (by decide) (by decide) (by decide)).1⟩

theorem c6_lazy_multi_propagation_witness :
    (∀ q ∈ cWriteTx.queue, q.name ≠ "MULTI") ∧
    ((execDrain cWriteTx cWriteTx.queue false sv0).2.1 =
      cWriteTx.queue.any isTrigger) :=
  ⟨by decide,
   (c6_lazy_multi_propagation cWriteTx sv0 (by decide) (by decide)).1⟩

theorem c9_exec_finalize_propagation_witness :
    cRoleTx.multi = true ∧ svPrimary.repl_backlog = true ∧
    (execCommand 1 cRoleTx svPrimary).2.1.dirty =
      svPrimary.dirty + (if cRoleTx.queue.any isTrigger then 1 else 0) :=
  ⟨by decide, by decide,
   (c9_exec_finalize_propagation 1 cRoleTx svPrimary (by decide) (by decide)
     (by decide) (by decide) (by decide)).1⟩
